import Mathlib

/-!
Verification of the backup catalog core of pg_probackup (`src/catalog.c`)
against its natural-language specification.

The development shallowly embeds the data model and the operations of
`catalog.c` in Lean: machine integers become `Nat`/`Int`, pointers become
`Option` references or indices, fatal `elog(ERROR)` exits become explicit
outcome constructors, and the I/O loops become pure functions threading
explicit state.  Every definition is translated from the C source;
definitions whose doc comment starts with `Modelled from the spec:` stand
for repository code that is not part of `src/catalog.c` (macros from
headers), or restate the specification for a refinement comparison.
-/

namespace PgProbackup

/-! ## Data model: enums of `pg_probackup.h` used by `catalog.c` -/

/-- Backup modes (`BackupMode` in the source). -/
inductive BackupMode where
  | INVALID
  | DIFF_PAGE
  | DIFF_PTRACK
  | DIFF_DELTA
  | FULL
  deriving DecidableEq, Repr

/-- Backup statuses (`BackupStatus` in the source). -/
inductive BackupStatus where
  | INVALID
  | OK
  | ERROR
  | RUNNING
  | MERGING
  | DELETING
  | DELETED
  | DONE
  | ORPHAN
  | CORRUPT
  deriving DecidableEq, Repr

/-- Compression algorithms (`CompressAlg` in the source). -/
inductive CompressAlg where
  | NOT_DEFINED_COMPRESS
  | NONE_COMPRESS
  | PGLZ_COMPRESS
  | ZLIB_COMPRESS
  deriving DecidableEq, Repr

/-- The scalar fields of `pgBackup` that `catalog.c` reads or writes.
LSNs (`XLogRecPtr`) are 64-bit byte positions modelled as `Nat`, with
`0` standing for `InvalidXLogRecPtr`.  `tli` is an unsigned 32-bit
timeline id, so the C test `tli <= 0` is modelled as `tli = 0`. -/
structure pgBackupRec where
  backup_id : Nat
  backup_mode : BackupMode
  status : BackupStatus
  tli : Nat
  start_lsn : Nat
  stop_lsn : Nat
  start_time : Nat
  merge_time : Nat
  end_time : Nat
  parent_backup : Nat
  stream : Bool
  from_replica : Bool
  compress_alg : CompressAlg
  deriving DecidableEq, Repr

/-- Default-initialised backup, translated from `pgBackupInit`
(restricted to the fields of `pgBackupRec`; `INVALID_BACKUP_ID` is 0). -/
def pgBackupInit : pgBackupRec :=
  { backup_id := 0
    backup_mode := BackupMode.INVALID
    status := BackupStatus.INVALID
    tli := 0
    start_lsn := 0
    stop_lsn := 0
    start_time := 0
    merge_time := 0
    end_time := 0
    parent_backup := 0
    stream := false
    from_replica := false
    compress_alg := CompressAlg.NONE_COMPRESS }

/-! ## Backup mode and compression algorithm codecs
(`parse_backup_mode` / `deparse_backup_mode` /
`parse_compress_alg` / `deparse_compress_alg`, `catalog.c:1717-1802`).

Strings are modelled as `List Char` (C strings without the trailing NUL).
A fatal `elog(ERROR)` in a parser is modelled as `none`. -/

/-- ASCII lower-casing as done by `pg_tolower` inside `pg_strncasecmp`. -/
def pgTolower (c : Char) : Char :=
  if 'A' ≤ c ∧ c ≤ 'Z' then Char.ofNat (c.toNat + 32) else c

/-- Whether `pg_strncasecmp s1 s2 n` returns 0: the first `n` characters
agree case-insensitively (a string ending inside the window makes the
comparison fail unless both end together). -/
def pg_strncasecmp_eq : List Char → List Char → Nat → Bool
  | _, _, 0 => true
  | [], [], _ + 1 => true
  | [], _ :: _, _ + 1 => false
  | _ :: _, [], _ + 1 => false
  | c1 :: t1, c2 :: t2, n + 1 =>
      pgTolower c1 = pgTolower c2 && pg_strncasecmp_eq t1 t2 n

/-- `IsSpace` of the source (`isspace` on ASCII). -/
def IsSpace (c : Char) : Bool :=
  c = ' ' || c = '\t' || c = '\n' || c = '\x0b' || c = '\x0c' || c = '\r'

/-- `parse_backup_mode` (`catalog.c:1717`): skip leading spaces, then
case-insensitive prefix match against the four mode words; anything else
is a fatal error (`none`). -/
def parse_backup_mode (value : List Char) : Option BackupMode :=
  let v := value.dropWhile IsSpace
  let len := v.length
  if len > 0 && pg_strncasecmp_eq "full".toList v len then some BackupMode.FULL
  else if len > 0 && pg_strncasecmp_eq "page".toList v len then some BackupMode.DIFF_PAGE
  else if len > 0 && pg_strncasecmp_eq "ptrack".toList v len then some BackupMode.DIFF_PTRACK
  else if len > 0 && pg_strncasecmp_eq "delta".toList v len then some BackupMode.DIFF_DELTA
  else none

/-- `deparse_backup_mode` (`catalog.c:1742`). -/
def deparse_backup_mode (mode : BackupMode) : List Char :=
  match mode with
  | BackupMode.FULL => "full".toList
  | BackupMode.DIFF_PAGE => "page".toList
  | BackupMode.DIFF_PTRACK => "ptrack".toList
  | BackupMode.DIFF_DELTA => "delta".toList
  | BackupMode.INVALID => "invalid".toList

/-- `parse_compress_alg` (`catalog.c:1762`): skip spaces; empty or
unrecognised input is a fatal error (`none`). -/
def parse_compress_alg (arg : List Char) : Option CompressAlg :=
  let v := arg.dropWhile IsSpace
  let len := v.length
  if len = 0 then none
  else if pg_strncasecmp_eq "zlib".toList v len then some CompressAlg.ZLIB_COMPRESS
  else if pg_strncasecmp_eq "pglz".toList v len then some CompressAlg.PGLZ_COMPRESS
  else if pg_strncasecmp_eq "none".toList v len then some CompressAlg.NONE_COMPRESS
  else none

/-- `deparse_compress_alg` (`catalog.c:1787`): both `NONE_COMPRESS` and
`NOT_DEFINED_COMPRESS` print as `"none"`. -/
def deparse_compress_alg (alg : CompressAlg) : List Char :=
  match alg with
  | CompressAlg.NONE_COMPRESS => "none".toList
  | CompressAlg.NOT_DEFINED_COMPRESS => "none".toList
  | CompressAlg.ZLIB_COMPRESS => "zlib".toList
  | CompressAlg.PGLZ_COMPRESS => "pglz".toList

/-! ## Lock manager (`lock_backup`, `catalog.c:117-302`)

The decision taken for an existing lockfile once its PID has been read
(`catalog.c:202-247`) is a pure function of the PID found in the file,
our own PID, our parent PID, and the outcome of the `kill(pid, 0)`
liveness probe.  `elog(ERROR)` is `fatal`; `return false` is
`returnFalse`; falling through to the `fio_unlink` + retry at
`catalog.c:245` is `retryStale`. -/

/-- Outcome of the `kill(encoded_pid, 0)` probe. -/
inductive ProbeResult where
  | success
  | errESRCH
  | errEPERM
  | errOther
  deriving DecidableEq, Repr

/-- What `lock_backup` does next after reading a lockfile PID. -/
inductive LockStep where
  | fatal
  | returnFalse
  | retryStale
  deriving DecidableEq, Repr

/-- Translation of `catalog.c:206-247`: the decision on an existing
lockfile whose content parsed (via `atoi`) to `encoded_pid`.  Note the
source compares `encoded_pid` only against `my_pid` and `my_p_pid`
(`catalog.c:221`); no other PID is excluded from the probe. -/
def lock_backup_check (my_pid my_p_pid encoded_pid : Int)
    (probe : ProbeResult) : LockStep :=
  if encoded_pid ≤ 0 then LockStep.fatal
  else if encoded_pid ≠ my_pid ∧ encoded_pid ≠ my_p_pid then
    match probe with
    | ProbeResult.success => LockStep.returnFalse
    | ProbeResult.errESRCH => LockStep.retryStale
    | ProbeResult.errEPERM => LockStep.fatal
    | ProbeResult.errOther => LockStep.fatal
  else LockStep.retryStale

/-- Modelled from the spec: the stale-lock decision as the specification
describes it, with a grandparent PID taken from the `PG_GRANDPARENT_PID`
environment variable treated as a third self-family PID whose probe is
skipped.  Kept only to compare with `lock_backup_check`, which is the
translation of the source. -/
def lock_backup_check_spec (my_pid my_p_pid my_gp_pid encoded_pid : Int)
    (probe : ProbeResult) : LockStep :=
  if encoded_pid ≤ 0 then LockStep.fatal
  else if encoded_pid ≠ my_pid ∧ encoded_pid ≠ my_p_pid ∧ encoded_pid ≠ my_gp_pid then
    match probe with
    | ProbeResult.success => LockStep.returnFalse
    | ProbeResult.errESRCH => LockStep.retryStale
    | ProbeResult.errEPERM => LockStep.returnFalse
    | ProbeResult.errOther => LockStep.fatal
  else LockStep.retryStale

/-! ## Parent-chain logic (`scan_parent_chain`, `catalog.c:2020-2067`)

`parent_backup_link` is a weak pointer resolved by the scanner; a walk
along it terminates in the source because the links point into an
acyclic list.  The chain is therefore embedded as an inductive value:
`root b` is a backup whose `parent_backup_link` is NULL, `child b p` one
whose link points at `p`. -/

/-- A backup together with its resolved `parent_backup_link` chain. -/
inductive BackupNode where
  | root (b : pgBackupRec)
  | child (b : pgBackupRec) (parent : BackupNode)
  deriving DecidableEq, Repr

/-- The `pgBackup` record at the head of a node. -/
def BackupNode.info : BackupNode → pgBackupRec
  | BackupNode.root b => b
  | BackupNode.child b _ => b

/-- The test `status == BACKUP_STATUS_OK || status == BACKUP_STATUS_DONE`
used throughout `catalog.c`. -/
def okdone (b : pgBackupRec) : Bool :=
  b.status = BackupStatus.OK || b.status = BackupStatus.DONE

/-- The chain from a backup to its oldest present ancestor, newest
first: the node itself, then its parent, and so on. -/
def chainList : BackupNode → List BackupNode
  | BackupNode.root b => [BackupNode.root b]
  | BackupNode.child b p => BackupNode.child b p :: chainList p

/-- Loop of `scan_parent_chain` (`catalog.c:2031-2066`) with the
`invalid_backup` accumulator made explicit.  While a node has a link its
status is checked and the walk continues; the terminal node is checked
only when it is FULL. -/
def scan_parent_chain_aux : BackupNode → Option BackupNode → Nat × BackupNode
  | BackupNode.child b p, invalid =>
      scan_parent_chain_aux p
        (if okdone b then invalid else some (BackupNode.child b p))
  | BackupNode.root b, invalid =>
      let invalid' :=
        if b.backup_mode = BackupMode.FULL ∧ ¬ okdone b
        then some (BackupNode.root b) else invalid
      if b.backup_mode ≠ BackupMode.FULL then (0, BackupNode.root b)
      else
        match invalid' with
        | some ib => (1, ib)
        | none => (2, BackupNode.root b)

/-- `scan_parent_chain` (`catalog.c:2020`): returns the code and writes
the witness backup through `result_backup`. -/
def scan_parent_chain (b : BackupNode) : Nat × BackupNode :=
  scan_parent_chain_aux b none

/-- The oldest present ancestor of a backup: the last node of its chain. -/
def chainLast (b : BackupNode) : BackupNode :=
  (chainList b).getLastD b

/-- The oldest ancestor (the backup itself included) whose status is
outside {OK, DONE}, if any. -/
def oldestInvalid (b : BackupNode) : Option BackupNode :=
  ((chainList b).filter (fun n => !okdone n.info)).getLast?

/-- The claim's reading of `scan_parent_chain`: classify by the terminal
node of the chain (`0` when it is not FULL, witness the oldest present
ancestor; `1` when some ancestor has status outside OK/DONE, witness the
oldest such; `2` otherwise, witness the FULL base). -/
def scanChainSpec (b : BackupNode) : Nat × BackupNode :=
  let last := chainLast b
  if last.info.backup_mode ≠ BackupMode.FULL then (0, last)
  else
    match oldestInvalid b with
    | some w => (1, w)
    | none => (2, last)

theorem chainList_ne_nil (b : BackupNode) : chainList b ≠ [] := by
  cases b <;> simp [chainList]

theorem getLastD_of_ne_nil {α : Type} (l : List α) (a b : α) (h : l ≠ []) :
    l.getLastD a = l.getLastD b := by
  cases l with
  | nil => exact absurd rfl h
  | cons x xs => rw [List.getLastD_cons, List.getLastD_cons]

theorem chainLast_child (b : pgBackupRec) (p : BackupNode) :
    chainLast (BackupNode.child b p) = chainLast p := by
  show (chainList (BackupNode.child b p)).getLastD (BackupNode.child b p)
      = (chainList p).getLastD p
  rw [show chainList (BackupNode.child b p) = BackupNode.child b p :: chainList p from rfl,
    List.getLastD_cons]
  exact getLastD_of_ne_nil _ _ _ (chainList_ne_nil p)

theorem oldestInvalid_child (b : pgBackupRec) (p : BackupNode) :
    oldestInvalid (BackupNode.child b p) =
      (if okdone b then oldestInvalid p
       else some ((oldestInvalid p).getD (BackupNode.child b p))) := by
  have hinfo : (BackupNode.child b p).info = b := rfl
  show ((BackupNode.child b p :: chainList p).filter (fun n => !okdone n.info)).getLast? = _
  rw [List.filter_cons]
  by_cases hok : okdone b
  · have hc : (!okdone (BackupNode.child b p).info) = false := by
      rw [hinfo, hok, Bool.not_true]
    rw [hc, if_pos hok]
    simp only [Bool.false_eq_true, if_false]
    rfl
  · have hc : (!okdone (BackupNode.child b p).info) = true := by
      rw [hinfo]
      simp [hok]
    rw [hc, if_neg hok]
    simp only [if_pos, List.getLast?_cons]
    rfl

theorem scan_parent_chain_aux_spec (b : BackupNode) (inv : Option BackupNode) :
    scan_parent_chain_aux b inv =
      (let last := chainLast b
       if last.info.backup_mode ≠ BackupMode.FULL then (0, last)
       else
         match oldestInvalid b with
         | some w => (1, w)
         | none =>
             match inv with
             | some ib => (1, ib)
             | none => (2, last)) := by
  induction b generalizing inv with
  | root b =>
      by_cases hf : b.backup_mode = BackupMode.FULL
      · by_cases hok : okdone b
        · simp [scan_parent_chain_aux, chainLast, oldestInvalid, chainList,
            BackupNode.info, hf, hok]
        · simp [scan_parent_chain_aux, chainLast, oldestInvalid, chainList,
            BackupNode.info, hf, hok]
      · by_cases hok : okdone b
        · simp [scan_parent_chain_aux, chainLast, oldestInvalid, chainList,
            BackupNode.info, hf, hok]
        · simp [scan_parent_chain_aux, chainLast, oldestInvalid, chainList,
            BackupNode.info, hf, hok]
  | child b p ih =>
      simp only [scan_parent_chain_aux]
      rw [ih, chainLast_child, oldestInvalid_child]
      by_cases hok : okdone b
      · simp [hok]
      · simp only [hok, if_neg, Bool.false_eq_true, if_false]
        cases hinv : oldestInvalid p with
        | none => simp
        | some w => simp

/-! ## File-list codec (`write_backup_filelist`, `catalog.c:1422-1560`)

Only the buffering discipline matters to the file-list claims: each file
produces one serialized line of some length, lines are accumulated in a
window of `BUFFERSZ` (`BLCKSZ * 500`) bytes, the window is written out
when an incoming line does not fit, and the remainder is written after
the loop.  Records are abstracted to an id plus the length of their
serialized line; the output is the sequence of records whose bytes ever
reach `fio_fwrite`. -/

/-- One file of the list: an identifier and the byte length of its
serialized JSON line. -/
structure FlRecord where
  id : Nat
  len : Nat
  deriving DecidableEq, Repr

/-- One iteration of the writing loop (`catalog.c:1510-1527`): state is
(records already written out, records currently in the buffer).  If the
line fits (`write_len + len <= BUFFERSZ`) it is copied into the buffer;
otherwise the buffer is flushed and `write_len` reset — the incoming
record is not copied anywhere. -/
def filelistStep (B : Nat) (st : List FlRecord × List FlRecord) (r : FlRecord) :
    List FlRecord × List FlRecord :=
  let written := st.1
  let buffer := st.2
  let write_len := (buffer.map FlRecord.len).sum
  if write_len + r.len ≤ B then (written, buffer ++ [r])
  else (written ++ buffer, [])

/-- `write_backup_filelist` (`catalog.c:1422`), reduced to which records
reach the output file: run the loop over all files, then write what is
left in the buffer (`catalog.c:1530-1538`). -/
def write_backup_filelist_model (B : Nat) (files : List FlRecord) : List FlRecord :=
  let st := files.foldl (filelistStep B) ([], [])
  st.1 ++ st.2

/-! ## Control-file status update (`write_backup_status`, `catalog.c:91-112`)

The on-disk catalog is abstracted as a map from backup id (start time)
to the parsed content of its control file; `none` is a control file that
is missing, empty or corrupt (`readBackupControlFile` returned NULL).
`write_backup` replaces the control file of `b.start_time` via the
temp-file + rename protocol, which at this level is the map update. -/

/-- The abstract on-disk catalog: control-file content per backup id. -/
def Store : Type := Nat → Option pgBackupRec

/-- `read_backup` (`catalog.c:72`): re-read the control file of the
backup with the given start time. -/
def read_backup (store : Store) (start_time : Nat) : Option pgBackupRec :=
  store start_time

/-- `write_backup` (`catalog.c:1384`): atomically replace the control
file of `b.start_time` with the serialization of `b`. -/
def write_backup (store : Store) (b : pgBackupRec) : Store :=
  fun t => if t = b.start_time then some b else store t

/-- `write_backup_status` (`catalog.c:91`): re-read the control file; on
failure return silently; on success set the in-memory status, copy it
onto the freshly read record and write that record back.  Returns the
new store and the (possibly updated) in-memory backup. -/
def write_backup_status (store : Store) (backup : pgBackupRec)
    (status : BackupStatus) : Store × pgBackupRec :=
  match read_backup store backup.start_time with
  | none => (store, backup)
  | some tmp =>
      let backup' := { backup with status := status }
      let tmp' := { tmp with status := backup'.status }
      (write_backup store tmp', backup')

/-! ## Catalog scanner (`catalog_get_backup_list`, `catalog.c:393-503`)

A directory entry of `<root>/backups/<instance>` is abstracted to the
base36-decoded value of its name, whether it is a directory, whether its
name starts with a dot, and the outcome of `readBackupControlFile` on
its `backup.control`.  `INVALID_BACKUP_ID` is 0. -/

/-- One entry of the instance directory as the scanner sees it. -/
structure DirEntry where
  nameDec : Nat
  isDir : Bool
  hidden : Bool
  control : Option pgBackupRec
  deriving Repr

/-- Body of the scanning loop (`catalog.c:416-461`): skip non-directories
and hidden entries; on unreadable control file synthesise a stub from the
directory name; then force `backup_id := start_time`. -/
def scanEntry (e : DirEntry) : Option pgBackupRec :=
  if ¬ e.isDir ∨ e.hidden then none
  else
    let b := match e.control with
      | none => { pgBackupInit with start_time := e.nameDec }
      | some c => c
    some { b with backup_id := b.start_time }

/-- `pgBackupCompareIdDesc` (`catalog.c:1887`) as a sorting relation:
descending start time. -/
def backupIdDesc (a b : pgBackupRec) : Prop :=
  b.start_time ≤ a.start_time

instance : DecidableRel backupIdDesc :=
  fun a b => Nat.decLe b.start_time a.start_time

instance : IsTotal pgBackupRec backupIdDesc :=
  ⟨fun a b => Nat.le_total b.start_time a.start_time⟩

instance : IsTrans pgBackupRec backupIdDesc :=
  ⟨fun _ _ _ hab hbc => Nat.le_trans hbc hab⟩

/-- A scanned backup together with its resolved `parent_backup_link`
(`none` for a FULL backup or when the parent is absent). -/
structure LinkedBackup where
  bk : pgBackupRec
  link : Option pgBackupRec
  deriving DecidableEq, Repr

/-- The scanning loop (`catalog.c:416-461`): every surviving entry,
filtered by the requested id (0 = `INVALID_BACKUP_ID` = all). -/
def scanBackups (requested : Nat) (entries : List DirEntry) : List pgBackupRec :=
  (entries.filterMap scanEntry).filter
    (fun b => requested = 0 || requested = b.start_time)

/-- The `parray_qsort(backups, pgBackupCompareIdDesc)` at `catalog.c:472`,
modelled by a comparison sort over the same ordering. -/
def sortedBackups (requested : Nat) (entries : List DirEntry) : List pgBackupRec :=
  List.insertionSort backupIdDesc (scanBackups requested entries)

/-- The linking loop body (`catalog.c:475-489`): a FULL backup is
skipped; otherwise the sorted list is searched (`parray_bsearch`) for
the backup whose start time equals `parent_backup`. -/
def linkBackup (sorted : List pgBackupRec) (c : pgBackupRec) : LinkedBackup :=
  { bk := c
    link := if c.backup_mode = BackupMode.FULL then none
            else sorted.find? (fun p => p.start_time = c.parent_backup) }

/-- `catalog_get_backup_list` (`catalog.c:393`): scan, sort descending,
link parents. -/
def catalog_get_backup_list (requested : Nat) (entries : List DirEntry) :
    List LinkedBackup :=
  (sortedBackups requested entries).map
    (linkBackup (sortedBackups requested entries))

/-! ## Retention engine (`catalog_get_timelines`, `catalog.c:903-1203`)

The embedding starts from the state the timeline scanner hands to the
retention code: a list of `timelineInfo` records with `anchor_lsn = 0`,
`anchor_tli = 0`, `keep_segments = NULL` and every `keep` flag false
(`timelineInfoNew`, `catalog.c:30-42`).  `parent_link` is an index into
the same list; the scanner links a timeline only to an earlier-pushed
one (`catalog.c:856-865`).  The per-timeline pass mutates the array in
place, so it is modelled as a fold over the indices threading the whole
list. -/

/-- `xlogFile` restricted to the fields the retention engine reads. -/
structure xlogFileRec where
  segno : Nat
  keep : Bool
  deriving DecidableEq, Repr

/-- `xlogInterval`: a closed interval of segment numbers. -/
structure xlogIntervalRec where
  begin_segno : Nat
  end_segno : Nat
  deriving DecidableEq, Repr

/-- `timelineInfo` restricted to the fields the retention engine reads
or writes.  `NULL` parrays are `none`; `InvalidXLogRecPtr` is `0`. -/
structure timelineInfoRec where
  tli : Nat
  parent_link : Option Nat
  switchpoint : Nat
  begin_segno : Nat
  end_segno : Nat
  backups : Option (List pgBackupRec)
  closest_backup : Option pgBackupRec
  anchor_lsn : Nat
  anchor_tli : Nat
  keep_segments : Option (List xlogIntervalRec)
  xlog_filelist : List xlogFileRec
  deriving DecidableEq, Repr

/-- Modelled from the spec: the `GetXLogSegNo` macro of `pg_probackup.h`
(not part of `src/catalog.c`), which converts an LSN into the number of
the WAL segment containing it. -/
def GetXLogSegNo (lsn seg_size : Nat) : Nat :=
  lsn / seg_size

/-- `parray_append` to a possibly-NULL `keep_segments` list, creating it
first when needed (`catalog.c:1073-1074`, `catalog.c:1143-1144`). -/
def appendKeep (ks : Option (List xlogIntervalRec)) (i : xlogIntervalRec) :
    Option (List xlogIntervalRec) :=
  some (ks.getD [] ++ [i])

/-- The filter of the anchor-search loop (`catalog.c:971-979`): status
OK or DONE, valid start LSN, positive tli. -/
def anchorCandidate (b : pgBackupRec) : Bool :=
  okdone b && b.start_lsn ≠ 0 && b.tli ≠ 0

/-- The anchor-search loop (`catalog.c:967-994`): walk the timeline's
backups, counting candidates; when the counter reaches `wal_depth` that
backup is the anchor.  Returns the counter at loop exit and the anchor
found, if any. -/
def anchorLoopAux (wal_depth count : Nat) :
    List pgBackupRec → Nat × Option pgBackupRec
  | [] => (count, none)
  | b :: rest =>
      if anchorCandidate b then
        if count + 1 = wal_depth then (count + 1, some b)
        else anchorLoopAux wal_depth (count + 1) rest
      else anchorLoopAux wal_depth count rest

/-- The filter of the ARCHIVE-backup loop (`catalog.c:1116-1126`): not a
STREAM backup, valid start LSN, positive tli, start LSN strictly below
the anchor. -/
def keepContrib (anchor_lsn : Nat) (b : pgBackupRec) : Bool :=
  !b.stream && b.start_lsn ≠ 0 && b.tli ≠ 0 && b.start_lsn < anchor_lsn

/-- The interval appended for one ARCHIVE backup (`catalog.c:1129-1141`):
`[segno(start_lsn), segno(stop_lsn)]`, the end bumped by one for a
backup taken from a replica. -/
def intervalOfBackup (seg_size : Nat) (b : pgBackupRec) : xlogIntervalRec :=
  { begin_segno := GetXLogSegNo b.start_lsn seg_size
    end_segno :=
      if b.from_replica then GetXLogSegNo b.stop_lsn seg_size + 1
      else GetXLogSegNo b.stop_lsn seg_size }

/-- The ARCHIVE-backup loop (`catalog.c:1104-1147`) over the backups it
visits, appending one interval per contributing backup. -/
def archiveKeep (seg_size anchor_lsn : Nat) (bks : List pgBackupRec)
    (ks : Option (List xlogIntervalRec)) : Option (List xlogIntervalRec) :=
  bks.foldl
    (fun acc b =>
      if keepContrib anchor_lsn b then appendKeep acc (intervalOfBackup seg_size b)
      else acc)
    ks

/-- The parent-timeline walk of the inheritance branch
(`catalog.c:1065-1098`), threading the whole timeline list because it
appends intervals to the parents' `keep_segments`.  The source loop
terminates because parent links point to strictly earlier list entries;
the embedding makes this explicit with fuel. -/
def inheritWalk (seg_size : Nat) (cb : pgBackupRec) :
    Nat → List timelineInfoRec → Nat → List timelineInfoRec
  | 0, tls, _ => tls
  | fuel + 1, tls, idx =>
      match tls[idx]? with
      | none => tls
      | some t =>
          match t.parent_link with
          | none => tls
          | some pidx =>
              match tls[pidx]? with
              | none => tls
              | some p =>
                  let switch_segno := GetXLogSegNo t.switchpoint seg_size
                  if p.tli ≠ cb.tli then
                    let iv : xlogIntervalRec :=
                      { begin_segno := p.begin_segno, end_segno := switch_segno }
                    let p' := { p with keep_segments := appendKeep p.keep_segments iv }
                    inheritWalk seg_size cb fuel (tls.set pidx p') pidx
                  else
                    let iv : xlogIntervalRec :=
                      { begin_segno := GetXLogSegNo cb.start_lsn seg_size
                        end_segno := switch_segno }
                    let p' := { p with keep_segments := appendKeep p.keep_segments iv }
                    tls.set pidx p'

/-- The anchor-search loop guarded by `if (tlinfo->backups)`
(`catalog.c:965-995`): the exit counter and the anchor found. -/
def anchorOf (wal_depth : Nat) (t : timelineInfoRec) : Nat × Option pgBackupRec :=
  match t.backups with
  | none => (0, none)
  | some bks => anchorLoopAux wal_depth 0 bks

/-- The assignments `tlinfo->anchor_lsn = ...; tlinfo->anchor_tli = ...`
at `catalog.c:990-991`, applied when an anchor was found. -/
def applyAnchor (t : timelineInfoRec) : Option pgBackupRec → timelineInfoRec
  | some ab => { t with anchor_lsn := ab.start_lsn, anchor_tli := ab.tli }
  | none => t

/-- The ARCHIVE extension of the timeline's own `keep_segments`
(`catalog.c:1103-1147`), starting at index `count` of its backups. -/
def stepExtend (seg_size count : Nat) (t1 : timelineInfoRec) : timelineInfoRec :=
  { t1 with
    keep_segments := archiveKeep seg_size t1.anchor_lsn
                       ((t1.backups.getD []).drop count) t1.keep_segments }

/-- The inheritance branch (`catalog.c:1016-1100`): no anchor among the
timeline's own backups; inherit it from `closest_backup` when that
exists and is sane, then walk the parent timelines. -/
def stepInherit (seg_size : Nat) (tls : List timelineInfoRec) (i : Nat)
    (t1 : timelineInfoRec) : List timelineInfoRec :=
  match t1.closest_backup with
  | none => tls
  | some cb =>
      if cb.start_lsn = 0 ∨ cb.tli = 0 then tls
      else
        inheritWalk seg_size cb tls.length
          (tls.set i { t1 with anchor_lsn := cb.start_lsn, anchor_tli := cb.tli }) i

/-- The body of the per-timeline loop (`catalog.c:955-1148`) for the
timeline at index `i`: search the anchor among its own backups; failing
that, inherit the anchor from `closest_backup` and walk the parent
timelines; otherwise extend `keep_segments` with the older ARCHIVE
backups. -/
def retentionStep (seg_size wal_depth : Nat) (tls : List timelineInfoRec)
    (i : Nat) : List timelineInfoRec :=
  match tls[i]? with
  | none => tls
  | some t =>
      if (applyAnchor t (anchorOf wal_depth t).2).anchor_lsn = 0 then
        stepInherit seg_size tls i (applyAnchor t (anchorOf wal_depth t).2)
      else
        tls.set i
          (stepExtend seg_size (anchorOf wal_depth t).1
            (applyAnchor t (anchorOf wal_depth t).2))

/-- The anchor/keep-segments pass (`catalog.c:955-1148`): the loop over
all timelines. -/
def anchorPhase (seg_size wal_depth : Nat) (tls : List timelineInfoRec) :
    List timelineInfoRec :=
  (List.range tls.length).foldl (retentionStep seg_size wal_depth) tls

/-- Membership test of the inner interval loop (`catalog.c:1189-1199`). -/
def inKeepSegments (ks : Option (List xlogIntervalRec)) (segno : Nat) : Bool :=
  match ks with
  | none => false
  | some l => l.any (fun k => k.begin_segno ≤ segno && segno ≤ k.end_segno)

/-- Marking one WAL file (`catalog.c:1174-1200`): keep everything from
the anchor segment on, and otherwise anything inside a keep interval. -/
def markFile (anchor_segno : Nat) (ks : Option (List xlogIntervalRec))
    (w : xlogFileRec) : xlogFileRec :=
  if anchor_segno ≤ w.segno then { w with keep := true }
  else if inKeepSegments ks w.segno then { w with keep := true }
  else w

/-- Marking one timeline (`catalog.c:1155-1201`): skipped when the
anchor is invalid or lives on another timeline (whole-timeline
protection). -/
def markTimeline (seg_size : Nat) (t : timelineInfoRec) : timelineInfoRec :=
  if t.anchor_lsn = 0 then t
  else if t.anchor_tli ≠ 0 ∧ t.anchor_tli ≠ t.tli then t
  else
    let fl := t.xlog_filelist.map
      (markFile (GetXLogSegNo t.anchor_lsn seg_size) t.keep_segments)
    { t with xlog_filelist := fl }

/-- The keep-flag pass (`catalog.c:1150-1201`). -/
def markPhase (seg_size : Nat) (tls : List timelineInfoRec) :
    List timelineInfoRec :=
  tls.map (markTimeline seg_size)

/-- The retention part of `catalog_get_timelines` (`catalog.c:903-1203`):
with `wal_depth <= 0` the timeline list is returned untouched
(`catalog.c:904-905`); otherwise the anchor pass runs, then the keep
flags are set. -/
def catalog_get_timelines_retention (seg_size : Nat) (wal_depth : Int)
    (tls : List timelineInfoRec) : List timelineInfoRec :=
  if wal_depth ≤ 0 then tls
  else markPhase seg_size (anchorPhase seg_size wal_depth.toNat tls)

/-! ## Lemmas about the retention engine -/

theorem anchorLoopAux_candidate (wd : Nat) (ab : pgBackupRec) :
    ∀ (bks : List pgBackupRec) (c : Nat),
      (anchorLoopAux wd c bks).2 = some ab → anchorCandidate ab = true := by
  intro bks
  induction bks with
  | nil => intro c h; cases h
  | cons b rest ih =>
      intro c h
      by_cases hc : anchorCandidate b
      · simp only [anchorLoopAux, hc, if_true] at h
        by_cases hd : c + 1 = wd
        · simp only [hd, if_true] at h
          cases h
          exact hc
        · simp only [hd, if_false] at h
          exact ih (c + 1) h
      · simp only [anchorLoopAux, hc, Bool.false_eq_true, if_false] at h
        exact ih c h

theorem anchorLoopAux_fst (wd : Nat) (ab : pgBackupRec) :
    ∀ (bks : List pgBackupRec) (c : Nat),
      (anchorLoopAux wd c bks).2 = some ab → (anchorLoopAux wd c bks).1 = wd := by
  intro bks
  induction bks with
  | nil => intro c h; cases h
  | cons b rest ih =>
      intro c h
      by_cases hc : anchorCandidate b
      · by_cases hd : c + 1 = wd
        · simp only [anchorLoopAux, hc, if_true, hd]
        · simp only [anchorLoopAux, hc, if_true, hd, if_false] at h ⊢
          exact ih (c + 1) h
      · simp only [anchorLoopAux, hc, Bool.false_eq_true, if_false] at h ⊢
        exact ih c h

theorem anchorLoopAux_get (wd : Nat) :
    ∀ (bks : List pgBackupRec) (c : Nat), c < wd →
      (anchorLoopAux wd c bks).2
        = (bks.filter anchorCandidate).get? (wd - 1 - c) := by
  intro bks
  induction bks with
  | nil => intro c _; rfl
  | cons b rest ih =>
      intro c hcw
      by_cases hc : anchorCandidate b
      · by_cases hd : c + 1 = wd
        · have h0 : wd - 1 - c = 0 := by omega
          simp [anchorLoopAux, hc, hd, List.filter_cons, h0]
        · have hlt : c + 1 < wd := by omega
          have hs : wd - 1 - c = (wd - 1 - (c + 1)) + 1 := by omega
          rw [show anchorLoopAux wd c (b :: rest) = anchorLoopAux wd (c + 1) rest from by
            simp [anchorLoopAux, hc, hd]]
          rw [ih (c + 1) hlt, List.filter_cons, hs]
          simp [hc]
      · rw [show anchorLoopAux wd c (b :: rest) = anchorLoopAux wd c rest from by
          simp [anchorLoopAux, hc]]
        rw [ih c hcw, List.filter_cons]
        simp [hc]

theorem anchorLoopAux_split (wd : Nat) (ab : pgBackupRec) :
    ∀ (bks : List pgBackupRec) (c : Nat),
      (anchorLoopAux wd c bks).2 = some ab →
      ∃ pre post, bks = pre ++ ab :: post ∧ wd - c ≤ pre.length + 1 := by
  intro bks
  induction bks with
  | nil => intro c h; cases h
  | cons b rest ih =>
      intro c h
      by_cases hc : anchorCandidate b
      · by_cases hd : c + 1 = wd
        · simp only [anchorLoopAux, hc, if_true, hd] at h
          cases h
          exact ⟨[], rest, rfl, by omega⟩
        · simp only [anchorLoopAux, hc, if_true, hd, if_false] at h
          obtain ⟨pre, post, heq, hlen⟩ := ih (c + 1) h
          exact ⟨b :: pre, post, by simp [heq], by simp; omega⟩
      · simp only [anchorLoopAux, hc, Bool.false_eq_true, if_false] at h
        obtain ⟨pre, post, heq, hlen⟩ := ih c h
        exact ⟨b :: pre, post, by simp [heq], by simp; omega⟩

theorem anchorCandidate_lsn (b : pgBackupRec) (h : anchorCandidate b = true) :
    b.start_lsn ≠ 0 := by
  simp only [anchorCandidate, Bool.and_eq_true, decide_eq_true_eq] at h
  exact h.1.2

theorem archiveKeep_getD (s a : Nat) :
    ∀ (bks : List pgBackupRec) (ks : Option (List xlogIntervalRec)),
      (archiveKeep s a bks ks).getD []
        = ks.getD [] ++ (bks.filter (keepContrib a)).map (intervalOfBackup s) := by
  intro bks
  induction bks with
  | nil => intro ks; simp [archiveKeep]
  | cons b rest ih =>
      intro ks
      by_cases hb : keepContrib a b
      · have h1 : archiveKeep s a (b :: rest) ks
            = archiveKeep s a rest (appendKeep ks (intervalOfBackup s b)) := by
          simp [archiveKeep, hb]
        rw [h1, ih (appendKeep ks (intervalOfBackup s b)), List.filter_cons]
        simp [appendKeep, hb]
      · have h1 : archiveKeep s a (b :: rest) ks = archiveKeep s a rest ks := by
          simp [archiveKeep, hb]
        rw [h1, ih ks, List.filter_cons]
        simp [hb]

theorem inheritWalk_length (s : Nat) (cb : pgBackupRec) :
    ∀ (fuel : Nat) (tls : List timelineInfoRec) (idx : Nat),
      (inheritWalk s cb fuel tls idx).length = tls.length := by
  intro fuel
  induction fuel with
  | zero => intro tls idx; rfl
  | succ fuel ih =>
      intro tls idx
      cases hti : tls[idx]? with
      | none => simp [inheritWalk, hti]
      | some t =>
          cases htl : t.parent_link with
          | none => simp [inheritWalk, hti, htl]
          | some pidx =>
              cases htp : tls[pidx]? with
              | none => simp [inheritWalk, hti, htl, htp]
              | some p =>
                  by_cases hne : p.tli = cb.tli
                  · simp only [inheritWalk, hti, htl, htp]
                    rw [if_neg (by simpa using hne)]
                    exact List.length_set ..
                  · simp only [inheritWalk, hti, htl, htp]
                    rw [if_pos hne, ih]
                    exact List.length_set ..

theorem inheritWalk_frame (s : Nat) (cb : pgBackupRec) :
    ∀ (fuel : Nat) (tls : List timelineInfoRec) (idx k : Nat)
      (t' : timelineInfoRec),
      (inheritWalk s cb fuel tls idx)[k]? = some t' →
      ∃ t, tls[k]? = some t ∧ t'.backups = t.backups ∧
        t'.xlog_filelist = t.xlog_filelist ∧ t'.anchor_lsn = t.anchor_lsn ∧
        t'.anchor_tli = t.anchor_tli := by
  intro fuel
  induction fuel with
  | zero => intro tls idx k t' h; exact ⟨t', h, rfl, rfl, rfl, rfl⟩
  | succ fuel ih =>
      intro tls idx k t' h
      cases hti : tls[idx]? with
      | none =>
          simp only [inheritWalk, hti] at h
          exact ⟨t', h, rfl, rfl, rfl, rfl⟩
      | some t =>
          cases htl : t.parent_link with
          | none =>
              simp only [inheritWalk, hti, htl] at h
              exact ⟨t', h, rfl, rfl, rfl, rfl⟩
          | some pidx =>
              cases htp : tls[pidx]? with
              | none =>
                  simp only [inheritWalk, hti, htl, htp] at h
                  exact ⟨t', h, rfl, rfl, rfl, rfl⟩
              | some p =>
                  simp only [inheritWalk, hti, htl, htp] at h
                  by_cases hne : p.tli ≠ cb.tli
                  · rw [if_pos hne] at h
                    obtain ⟨u, hu, hub, huf, hua, huat⟩ := ih _ _ _ _ h
                    by_cases hk : pidx = k
                    · subst hk
                      rw [List.getElem?_set_self', htp] at hu
                      simp only [Option.map_eq_map, Option.map_some', Function.const_apply] at hu
                      cases hu
                      exact ⟨p, htp, hub, huf, hua, huat⟩
                    · rw [List.getElem?_set_ne hk] at hu
                      exact ⟨u, hu, hub, huf, hua, huat⟩
                  · rw [if_neg hne] at h
                    by_cases hk : pidx = k
                    · subst hk
                      rw [List.getElem?_set_self', htp] at h
                      simp only [Option.map_eq_map, Option.map_some', Function.const_apply] at h
                      cases h
                      exact ⟨p, htp, rfl, rfl, rfl, rfl⟩
                    · rw [List.getElem?_set_ne hk] at h
                      exact ⟨t', h, rfl, rfl, rfl, rfl⟩

theorem retentionStep_length (s wd : Nat) (tls : List timelineInfoRec) (i : Nat) :
    (retentionStep s wd tls i).length = tls.length := by
  cases hti : tls[i]? with
  | none => simp [retentionStep, hti]
  | some t =>
      simp only [retentionStep, hti]
      by_cases h0 : (applyAnchor t (anchorOf wd t).2).anchor_lsn = 0
      · rw [if_pos h0]
        cases hcb : (applyAnchor t (anchorOf wd t).2).closest_backup with
        | none => simp [stepInherit, hcb]
        | some cb =>
            simp only [stepInherit, hcb]
            by_cases hsane : cb.start_lsn = 0 ∨ cb.tli = 0
            · rw [if_pos hsane]
            · rw [if_neg hsane, inheritWalk_length]
              exact List.length_set ..
      · rw [if_neg h0]
        exact List.length_set ..

theorem retentionStep_frame (s wd : Nat) (tls : List timelineInfoRec) (i k : Nat)
    (t' : timelineInfoRec)
    (h : (retentionStep s wd tls i)[k]? = some t') :
    ∃ t, tls[k]? = some t ∧ t'.backups = t.backups ∧
      t'.xlog_filelist = t.xlog_filelist ∧
      (k ≠ i → t'.anchor_lsn = t.anchor_lsn ∧ t'.anchor_tli = t.anchor_tli) := by
  cases hti : tls[i]? with
  | none =>
      simp only [retentionStep, hti] at h
      exact ⟨t', h, rfl, rfl, fun _ => ⟨rfl, rfl⟩⟩
  | some t =>
      simp only [retentionStep, hti] at h
      by_cases h0 : (applyAnchor t (anchorOf wd t).2).anchor_lsn = 0
      · rw [if_pos h0] at h
        cases hcb : (applyAnchor t (anchorOf wd t).2).closest_backup with
        | none =>
            simp only [stepInherit, hcb] at h
            exact ⟨t', h, rfl, rfl, fun _ => ⟨rfl, rfl⟩⟩
        | some cb =>
            simp only [stepInherit, hcb] at h
            by_cases hsane : cb.start_lsn = 0 ∨ cb.tli = 0
            · rw [if_pos hsane] at h
              exact ⟨t', h, rfl, rfl, fun _ => ⟨rfl, rfl⟩⟩
            · rw [if_neg hsane] at h
              obtain ⟨u, hu, hub, huf, hua, huat⟩ := inheritWalk_frame s cb _ _ _ _ _ h
              by_cases hk : i = k
              · subst hk
                rw [List.getElem?_set_self', hti] at hu
                simp only [Option.map_eq_map, Option.map_some', Function.const_apply] at hu
                cases hu
                refine ⟨t, hti, ?_, ?_, fun hki => absurd rfl hki⟩
                · rw [hub]
                  cases hao : (anchorOf wd t).2 <;> simp [applyAnchor, hao]
                · rw [huf]
                  cases hao : (anchorOf wd t).2 <;> simp [applyAnchor, hao]
              · rw [List.getElem?_set_ne hk] at hu
                exact ⟨u, hu, hub, huf, fun _ => ⟨hua, huat⟩⟩
      · rw [if_neg h0] at h
        by_cases hk : i = k
        · subst hk
          rw [List.getElem?_set_self', hti] at h
          simp only [Option.map_eq_map, Option.map_some', Function.const_apply] at h
          cases h
          refine ⟨t, hti, ?_, ?_, fun hki => absurd rfl hki⟩
          · cases hao : (anchorOf wd t).2 <;> simp [stepExtend, applyAnchor, hao]
          · cases hao : (anchorOf wd t).2 <;> simp [stepExtend, applyAnchor, hao]
        · rw [List.getElem?_set_ne hk] at h
          exact ⟨t', h, rfl, rfl, fun _ => ⟨rfl, rfl⟩⟩

theorem foldSteps_length (s wd : Nat) :
    ∀ (l : List Nat) (tls : List timelineInfoRec),
      (l.foldl (retentionStep s wd) tls).length = tls.length := by
  intro l
  induction l with
  | nil => intro tls; rfl
  | cons j rest ih =>
      intro tls
      rw [List.foldl_cons, ih, retentionStep_length]

theorem foldSteps_frame (s wd : Nat) :
    ∀ (l : List Nat) (tls : List timelineInfoRec) (k : Nat)
      (t' : timelineInfoRec),
      (l.foldl (retentionStep s wd) tls)[k]? = some t' →
      ∃ t, tls[k]? = some t ∧ t'.backups = t.backups ∧
        t'.xlog_filelist = t.xlog_filelist ∧
        (k ∉ l → t'.anchor_lsn = t.anchor_lsn ∧ t'.anchor_tli = t.anchor_tli) := by
  intro l
  induction l with
  | nil => intro tls k t' h; exact ⟨t', h, rfl, rfl, fun _ => ⟨rfl, rfl⟩⟩
  | cons j rest ih =>
      intro tls k t' h
      rw [List.foldl_cons] at h
      obtain ⟨u, hu, hub, huf, hanch⟩ := ih _ _ _ h
      obtain ⟨t, ht, htb, htf, htanch⟩ := retentionStep_frame s wd tls j k u hu
      refine ⟨t, ht, hub.trans htb, huf.trans htf, fun hnotin => ?_⟩
      have hkj : k ≠ j := fun hkj => hnotin (hkj ▸ List.mem_cons_self j rest)
      have hkrest : k ∉ rest := fun hr => hnotin (List.mem_cons_of_mem j hr)
      obtain ⟨ha1, ha2⟩ := htanch hkj
      obtain ⟨hb1, hb2⟩ := hanch hkrest
      exact ⟨hb1.trans ha1, hb2.trans ha2⟩

theorem retentionStep_found (s wd : Nat) (tls : List timelineInfoRec) (i : Nat)
    (t : timelineInfoRec) (bks : List pgBackupRec) (ab : pgBackupRec)
    (hti : tls[i]? = some t) (hb : t.backups = some bks)
    (ha : (anchorLoopAux wd 0 bks).2 = some ab) :
    (retentionStep s wd tls i)[i]?
      = some { t with
               anchor_lsn := ab.start_lsn
               anchor_tli := ab.tli
               keep_segments := archiveKeep s ab.start_lsn (bks.drop wd)
                                  t.keep_segments } := by
  have hcand := anchorLoopAux_candidate wd ab bks 0 ha
  have hlsn : ab.start_lsn ≠ 0 := anchorCandidate_lsn ab hcand
  have hfst : (anchorLoopAux wd 0 bks).1 = wd := anchorLoopAux_fst wd ab bks 0 ha
  have hao : anchorOf wd t = (wd, some ab) := by
    have h1 : anchorOf wd t = anchorLoopAux wd 0 bks := by
      unfold anchorOf
      rw [hb]
    rw [h1]
    exact Prod.ext hfst ha
  simp only [retentionStep, hti, hao, applyAnchor]
  rw [if_neg hlsn]
  rw [List.getElem?_set_self', hti]
  simp only [Option.map_eq_map, Option.map_some', Function.const_apply,
    Option.some.injEq]
  simp [stepExtend, hb]

theorem range_split (i n : Nat) (h : i < n) :
    ∃ l₂, List.range n = List.range i ++ i :: l₂ ∧ ∀ j ∈ l₂, i < j := by
  refine ⟨(List.range (n - i - 1)).map (fun j => i + 1 + j), ?_, ?_⟩
  · have h1 : n = (i + 1) + (n - i - 1) := by omega
    calc List.range n = List.range ((i + 1) + (n - i - 1)) := by rw [← h1]
      _ = List.range (i + 1)
            ++ (List.range (n - i - 1)).map (fun j => (i + 1) + j) :=
          List.range_add _ _
      _ = (List.range i ++ [i])
            ++ (List.range (n - i - 1)).map (fun j => (i + 1) + j) := by
          rw [List.range_succ]
      _ = List.range i ++ i :: (List.range (n - i - 1)).map (fun j => i + 1 + j) := by
          simp
  · intro j hj
    obtain ⟨j', _, rfl⟩ := List.mem_map.mp hj
    omega

theorem anchorPhase_found (s wd : Nat) (tls : List timelineInfoRec) (i : Nat)
    (t : timelineInfoRec) (bks : List pgBackupRec) (ab : pgBackupRec)
    (hti : tls[i]? = some t) (hb : t.backups = some bks)
    (ha : (anchorLoopAux wd 0 bks).2 = some ab) :
    ∃ t', (anchorPhase s wd tls)[i]? = some t' ∧
      t'.anchor_lsn = ab.start_lsn ∧ t'.anchor_tli = ab.tli := by
  have hi : i < tls.length := (List.getElem?_eq_some_iff.mp hti).1
  obtain ⟨l₂, hr, hl₂⟩ := range_split i tls.length hi
  unfold anchorPhase
  rw [hr, List.foldl_append, List.foldl_cons]
  have hmidlen : ((List.range i).foldl (retentionStep s wd) tls).length
      = tls.length := foldSteps_length s wd _ tls
  have hmi : i < ((List.range i).foldl (retentionStep s wd) tls).length := by
    rw [hmidlen]
    exact hi
  obtain ⟨u, hu⟩ :
      ∃ u, ((List.range i).foldl (retentionStep s wd) tls)[i]? = some u := by
    cases hmu : ((List.range i).foldl (retentionStep s wd) tls)[i]? with
    | none =>
        rw [List.getElem?_eq_none_iff] at hmu
        omega
    | some u => exact ⟨u, rfl⟩
  obtain ⟨t₀, ht₀, hub, _, _⟩ := foldSteps_frame s wd (List.range i) tls i u hu
  have ht₀t : t₀ = t := by
    rw [hti] at ht₀
    exact (Option.some.inj ht₀).symm
  subst ht₀t
  have hub2 : u.backups = some bks := hub.trans hb
  have hstep := retentionStep_found s wd _ i _ bks ab hu hub2 ha
  have hi2 : i < (l₂.foldl (retentionStep s wd)
      (retentionStep s wd ((List.range i).foldl (retentionStep s wd) tls) i)).length := by
    rw [foldSteps_length, retentionStep_length, hmidlen]
    exact hi
  obtain ⟨tf, hfin⟩ :
      ∃ tf, (l₂.foldl (retentionStep s wd)
        (retentionStep s wd ((List.range i).foldl (retentionStep s wd) tls) i))[i]?
          = some tf := by
    cases hmu : (l₂.foldl (retentionStep s wd)
        (retentionStep s wd ((List.range i).foldl (retentionStep s wd) tls) i))[i]? with
    | none =>
        rw [List.getElem?_eq_none_iff] at hmu
        omega
    | some v => exact ⟨v, rfl⟩
  obtain ⟨T2, hT2, _, _, hTanch⟩ := foldSteps_frame s wd l₂ _ i _ hfin
  have hi_notin : i ∉ l₂ := fun hmem => absurd (hl₂ i hmem) (lt_irrefl i)
  obtain ⟨ha1, ha2⟩ := hTanch hi_notin
  have hT2eq : T2 = { u with
      anchor_lsn := ab.start_lsn
      anchor_tli := ab.tli
      keep_segments := archiveKeep s ab.start_lsn (bks.drop wd) u.keep_segments } := by
    rw [hstep] at hT2
    exact (Option.some.inj hT2).symm
  refine ⟨tf, hfin, ?_, ?_⟩
  · rw [ha1, hT2eq]
  · rw [ha2, hT2eq]

theorem markTimeline_fields (s : Nat) (t : timelineInfoRec) :
    (markTimeline s t).anchor_lsn = t.anchor_lsn ∧
    (markTimeline s t).anchor_tli = t.anchor_tli ∧
    (markTimeline s t).tli = t.tli ∧
    (markTimeline s t).keep_segments = t.keep_segments := by
  unfold markTimeline
  by_cases h0 : t.anchor_lsn = 0
  · rw [if_pos h0]
    exact ⟨rfl, rfl, rfl, rfl⟩
  · rw [if_neg h0]
    by_cases h1 : t.anchor_tli ≠ 0 ∧ t.anchor_tli ≠ t.tli
    · rw [if_pos h1]
      exact ⟨rfl, rfl, rfl, rfl⟩
    · rw [if_neg h1]
      exact ⟨rfl, rfl, rfl, rfl⟩

theorem markFile_spec (a : Nat) (ks : Option (List xlogIntervalRec))
    (w : xlogFileRec) (h : w.keep = false) :
    (markFile a ks w).segno = w.segno ∧
    ((markFile a ks w).keep = true ↔
      a ≤ w.segno ∨ inKeepSegments ks w.segno = true) := by
  unfold markFile
  by_cases h1 : a ≤ w.segno
  · rw [if_pos h1]
    exact ⟨rfl, by simp [h1]⟩
  · rw [if_neg h1]
    by_cases h2 : inKeepSegments ks w.segno
    · rw [if_pos h2]
      exact ⟨rfl, by simp [h2]⟩
    · rw [if_neg h2]
      refine ⟨rfl, ?_⟩
      rw [h]
      simp [h1, h2]

theorem inKeepSegments_iff (ks : Option (List xlogIntervalRec)) (segno : Nat) :
    inKeepSegments ks segno = true ↔
      ∃ k ∈ ks.getD [], k.begin_segno ≤ segno ∧ segno ≤ k.end_segno := by
  cases ks with
  | none => simp [inKeepSegments]
  | some l => simp [inKeepSegments, List.any_eq_true]

theorem filter_keepContrib_sorted (wd : Nat) (bks : List pgBackupRec)
    (ab : pgBackupRec) (ha : (anchorLoopAux wd 0 bks).2 = some ab)
    (hsort : List.Pairwise (fun a b => b.start_lsn ≤ a.start_lsn) bks) :
    bks.filter (keepContrib ab.start_lsn)
      = (bks.drop wd).filter (keepContrib ab.start_lsn) := by
  obtain ⟨pre, post, heq, hlen⟩ := anchorLoopAux_split wd ab bks 0 ha
  have hge : ∀ x ∈ bks.take wd, ab.start_lsn ≤ x.start_lsn := by
    intro x hx
    rw [heq] at hx hsort
    rw [List.take_append_eq_append_take] at hx
    rcases List.mem_append.mp hx with hx1 | hx2
    · have hxpre : x ∈ pre := List.take_subset _ _ hx1
      exact (List.pairwise_append.mp hsort).2.2 x hxpre ab (List.mem_cons_self _ _)
    · have hm : wd - pre.length ≤ 1 := by omega
      cases hwp : wd - pre.length with
      | zero =>
          rw [hwp] at hx2
          cases hx2
      | succ m =>
          have hm0 : m = 0 := by omega
          rw [hwp, hm0] at hx2
          have : x = ab := by simpa using hx2
          rw [this]
  have htake : (bks.take wd).filter (keepContrib ab.start_lsn) = [] := by
    rw [List.filter_eq_nil_iff]
    intro x hx
    have hle := hge x hx
    simp [keepContrib, Nat.not_lt.mpr hle]
  conv_lhs => rw [← List.take_append_drop wd bks]
  rw [List.filter_append, htake, List.nil_append]

/-! ## Theorems -/

/-- C9: `parse_backup_mode` is a left inverse of `deparse_backup_mode`
on FULL, PAGE, PTRACK and DELTA; `parse_compress_alg` is a left inverse
of `deparse_compress_alg` on NONE, PGLZ and ZLIB; and NOT_DEFINED
deparses to `"none"`, which parses back to NONE, so the NONE/NOT_DEFINED
distinction is lost on round-trip. -/
theorem backup_mode_compress_alg_roundtrip :
    parse_backup_mode (deparse_backup_mode BackupMode.FULL) = some BackupMode.FULL ∧
    parse_backup_mode (deparse_backup_mode BackupMode.DIFF_PAGE) = some BackupMode.DIFF_PAGE ∧
    parse_backup_mode (deparse_backup_mode BackupMode.DIFF_PTRACK) = some BackupMode.DIFF_PTRACK ∧
    parse_backup_mode (deparse_backup_mode BackupMode.DIFF_DELTA) = some BackupMode.DIFF_DELTA ∧
    parse_compress_alg (deparse_compress_alg CompressAlg.NONE_COMPRESS)
      = some CompressAlg.NONE_COMPRESS ∧
    parse_compress_alg (deparse_compress_alg CompressAlg.PGLZ_COMPRESS)
      = some CompressAlg.PGLZ_COMPRESS ∧
    parse_compress_alg (deparse_compress_alg CompressAlg.ZLIB_COMPRESS)
      = some CompressAlg.ZLIB_COMPRESS ∧
    deparse_compress_alg CompressAlg.NOT_DEFINED_COMPRESS = "none".toList ∧
    parse_compress_alg ("none".toList) = some CompressAlg.NONE_COMPRESS := by
  decide

/-- C8: the claim fails on the code.  With buffer capacity 10, two
records whose lines are 6 bytes each produce an output containing only
the first record: when the second line does not fit, the loop at
`catalog.c:1510-1527` flushes the buffer and resets `write_len` but
never copies the pending line, so that record is silently dropped. -/
theorem write_backup_filelist_drops_record :
    write_backup_filelist_model 10
        [{ id := 0, len := 6 }, { id := 1, len := 6 }]
      = [{ id := 0, len := 6 }] ∧
    ({ id := 1, len := 6 } : FlRecord) ∉
      write_backup_filelist_model 10
        [{ id := 0, len := 6 }, { id := 1, len := 6 }] := by
  decide

/-- C4 counterexample: a lockfile PID equal to the grandparent PID from
`PG_GRANDPARENT_PID` (here 80, with our PID 100 and parent 90) is NOT
treated as stale by the source: the probe runs, and with the process
alive `lock_backup` returns false, while the claim demands the
stale/unlink/retry path (as `lock_backup_check_spec` shows). -/
theorem lock_backup_grandparent_probed :
    lock_backup_check 100 90 80 ProbeResult.success = LockStep.returnFalse ∧
    lock_backup_check_spec 100 90 80 80 ProbeResult.success = LockStep.retryStale ∧
    LockStep.returnFalse ≠ LockStep.retryStale := by
  decide

/-- C4 (amended): a lockfile PID equal to the calling process's own PID
or its parent's PID is treated as stale — the liveness probe is skipped
and the file is unlinked and acquisition retried; the grandparent PID
from `PG_GRANDPARENT_PID` is not consulted and enjoys no such treatment
(it is probed like any unrelated PID). -/
theorem lock_backup_self_family_stale (my_pid my_p_pid encoded_pid : Int)
    (probe : ProbeResult) (hpos : 0 < encoded_pid)
    (hfam : encoded_pid = my_pid ∨ encoded_pid = my_p_pid) :
    lock_backup_check my_pid my_p_pid encoded_pid probe = LockStep.retryStale := by
  have hle : ¬ (encoded_pid ≤ 0) := by omega
  have hfam' : ¬ (encoded_pid ≠ my_pid ∧ encoded_pid ≠ my_p_pid) := by
    rcases hfam with h | h <;> simp [h]
  simp only [lock_backup_check, if_neg hle, if_neg hfam']

theorem lock_backup_self_family_stale_witness :
    (0 : Int) < 100 ∧
    lock_backup_check 100 90 100 ProbeResult.success = LockStep.retryStale :=
  ⟨by decide,
   lock_backup_self_family_stale 100 90 100 ProbeResult.success (by decide)
     (Or.inl rfl)⟩

/-- C5 counterexample: when the `kill(pid, 0)` probe fails with EPERM,
`lock_backup` terminates fatally through `elog(ERROR)`
(`catalog.c:234-236`) — it does not warn and return false as the claim
states. -/
theorem lock_backup_eperm_fatal :
    lock_backup_check 100 90 500 ProbeResult.errEPERM = LockStep.fatal ∧
    LockStep.fatal ≠ LockStep.returnFalse := by
  decide

/-- C5 (amended): for a positive lockfile PID different from our own and
our parent's, a successful probe means a live owner (warn, return
false); ESRCH means a stale lock (unlink and retry); every other probe
errno — EPERM included — is fatal. -/
theorem lock_backup_probe_outcomes (my_pid my_p_pid encoded_pid : Int)
    (hpos : 0 < encoded_pid) (h1 : encoded_pid ≠ my_pid)
    (h2 : encoded_pid ≠ my_p_pid) :
    lock_backup_check my_pid my_p_pid encoded_pid ProbeResult.success
        = LockStep.returnFalse ∧
    lock_backup_check my_pid my_p_pid encoded_pid ProbeResult.errESRCH
        = LockStep.retryStale ∧
    lock_backup_check my_pid my_p_pid encoded_pid ProbeResult.errEPERM
        = LockStep.fatal ∧
    lock_backup_check my_pid my_p_pid encoded_pid ProbeResult.errOther
        = LockStep.fatal := by
  have hle : ¬ (encoded_pid ≤ 0) := by omega
  simp only [lock_backup_check, if_neg hle, if_pos (And.intro h1 h2)]
  exact ⟨trivial, trivial, trivial, trivial⟩

theorem lock_backup_probe_outcomes_witness :
    (0 : Int) < 500 ∧ (500 : Int) ≠ 100 ∧ (500 : Int) ≠ 90 ∧
    (lock_backup_check 100 90 500 ProbeResult.success = LockStep.returnFalse ∧
     lock_backup_check 100 90 500 ProbeResult.errESRCH = LockStep.retryStale ∧
     lock_backup_check 100 90 500 ProbeResult.errEPERM = LockStep.fatal ∧
     lock_backup_check 100 90 500 ProbeResult.errOther = LockStep.fatal) :=
  ⟨by decide, by decide, by decide,
   lock_backup_probe_outcomes 100 90 500 (by decide) (by decide) (by decide)⟩

/-- C7: `scan_parent_chain` agrees everywhere with the classification
stated by the claim: code 0 with the oldest present ancestor when the
chain terminates at a non-FULL node; code 1 with the oldest ancestor of
status outside {OK, DONE} when the chain reaches a FULL base but some
ancestor (possibly the base) is invalid; code 2 with the FULL base when
the chain is intact and every ancestor is OK or DONE. -/
theorem scan_parent_chain_correct (b : BackupNode) :
    scan_parent_chain b = scanChainSpec b := by
  rw [scan_parent_chain, scan_parent_chain_aux_spec]
  rfl

/-- C10: `write_backup_status` first re-reads the control file of
`b.start_time`; on failure it changes nothing (neither the store nor the
in-memory backup); on success the written control file is the freshly
read record with only its status replaced, and the resulting store
depends on the in-memory argument only through `start_time`. -/
theorem write_backup_status_frame (store : Store) (b : pgBackupRec)
    (s : BackupStatus) :
    (read_backup store b.start_time = none →
        write_backup_status store b s = (store, b)) ∧
    (∀ tmp, read_backup store b.start_time = some tmp →
        write_backup_status store b s
          = (write_backup store { tmp with status := s },
             { b with status := s })) ∧
    (∀ b2 : pgBackupRec, b2.start_time = b.start_time →
        (write_backup_status store b s).1 = (write_backup_status store b2 s).1) := by
  refine ⟨fun hnone => ?_, fun tmp hsome => ?_, fun b2 hb2 => ?_⟩
  · simp [write_backup_status, hnone]
  · simp [write_backup_status, hsome]
  · unfold write_backup_status
    rw [show read_backup store b2.start_time = read_backup store b.start_time by
      rw [hb2]]
    cases read_backup store b.start_time <;> rfl

theorem scanEntry_id (e : DirEntry) (c : pgBackupRec)
    (h : scanEntry e = some c) : c.backup_id = c.start_time := by
  unfold scanEntry at h
  split at h
  · cases h
  · injection h with h'
    subst h'
    rfl

/-- C6: the list returned by `catalog_get_backup_list` is sorted by
start time in descending order, every element's `backup_id` equals its
`start_time`, and every non-FULL element's `parent_backup_link` is null
or points to an element of the same list whose start time equals the
element's `parent_backup`. -/
theorem catalog_get_backup_list_invariants (requested : Nat)
    (entries : List DirEntry) :
    List.Pairwise (fun a b => b.bk.start_time ≤ a.bk.start_time)
      (catalog_get_backup_list requested entries) ∧
    (∀ x ∈ catalog_get_backup_list requested entries,
        x.bk.backup_id = x.bk.start_time) ∧
    (∀ x ∈ catalog_get_backup_list requested entries,
        x.bk.backup_mode ≠ BackupMode.FULL →
        x.link = none ∨
        ∃ y ∈ catalog_get_backup_list requested entries,
          x.link = some y.bk ∧ y.bk.start_time = x.bk.parent_backup) := by
  refine ⟨?_, ?_, ?_⟩
  · have hsorted := List.sorted_insertionSort backupIdDesc
      (scanBackups requested entries)
    have hmap : catalog_get_backup_list requested entries
        = (sortedBackups requested entries).map
            (linkBackup (sortedBackups requested entries)) := rfl
    rw [hmap, List.pairwise_map]
    exact hsorted.imp (fun h => h)
  · intro x hx
    have hx' : x ∈ (sortedBackups requested entries).map
        (linkBackup (sortedBackups requested entries)) := hx
    obtain ⟨c, hc, rfl⟩ := List.mem_map.mp hx'
    have hc1 : c ∈ scanBackups requested entries :=
      (List.perm_insertionSort backupIdDesc (scanBackups requested entries)).mem_iff.mp hc
    have hc2 := (List.mem_filter.mp hc1).1
    obtain ⟨e, _, hsc⟩ := List.mem_filterMap.mp hc2
    exact scanEntry_id e c hsc
  · intro x hx hmode
    have hx' : x ∈ (sortedBackups requested entries).map
        (linkBackup (sortedBackups requested entries)) := hx
    obtain ⟨c, hc, rfl⟩ := List.mem_map.mp hx'
    have hmode' : c.backup_mode ≠ BackupMode.FULL := hmode
    cases hfind : (sortedBackups requested entries).find?
        (fun p => p.start_time = c.parent_backup) with
    | none =>
        left
        simp [linkBackup, hmode', hfind]
    | some p =>
        right
        refine ⟨linkBackup (sortedBackups requested entries) p,
          List.mem_map_of_mem _ (List.mem_of_find?_eq_some hfind), ?_, ?_⟩
        · simp [linkBackup, hmode', hfind]
        · have hd := List.find?_some hfind
          have hps : p.start_time = c.parent_backup := by simpa using hd
          exact hps

/-- A FULL OK backup with id 50, used to exercise the scanner. -/
def bkF50 : pgBackupRec :=
  { pgBackupInit with
    backup_mode := BackupMode.FULL, status := BackupStatus.OK, start_time := 50 }

/-- A DELTA OK backup with id 70 whose parent is 50. -/
def bkD70 : pgBackupRec :=
  { pgBackupInit with
    backup_mode := BackupMode.DIFF_DELTA, status := BackupStatus.OK,
    start_time := 70, parent_backup := 50 }

/-- A small instance directory: two backups with control files, one
directory without a readable control file. -/
def entriesW : List DirEntry :=
  [{ nameDec := 50, isDir := true, hidden := false, control := some bkF50 },
   { nameDec := 70, isDir := true, hidden := false, control := some bkD70 },
   { nameDec := 30, isDir := true, hidden := false, control := none }]

/-- The first element of the scanner result on `entriesW` (the DELTA). -/
def xW : LinkedBackup :=
  ((catalog_get_backup_list 0 entriesW).get? 0).getD { bk := pgBackupInit, link := none }

theorem catalog_get_backup_list_invariants_witness :
    xW.bk.backup_id = xW.bk.start_time ∧
    (xW.link = none ∨
      ∃ y ∈ catalog_get_backup_list 0 entriesW,
        xW.link = some y.bk ∧ y.bk.start_time = xW.bk.parent_backup) := by
  have h := catalog_get_backup_list_invariants 0 entriesW
  exact ⟨h.2.1 xW (by decide), h.2.2 xW (by decide) (by decide)⟩

/-- A control-file record used to exercise `write_backup_status`. -/
def recW : pgBackupRec :=
  { pgBackupInit with start_time := 5, status := BackupStatus.OK, tli := 3 }

/-- An abstract catalog holding a single control file for id 5. -/
def storeW : Store :=
  fun t => if t = 5 then some recW else none

/-- An in-memory backup for id 5 whose other fields differ from disk. -/
def bInW : pgBackupRec :=
  { pgBackupInit with start_time := 5, status := BackupStatus.RUNNING, stream := true }

/-- Another in-memory backup for id 5, differing from `bInW`. -/
def bInW2 : pgBackupRec :=
  { pgBackupInit with start_time := 5, status := BackupStatus.MERGING, tli := 9 }

/-- An in-memory backup whose control file is absent from `storeW`. -/
def bMissW : pgBackupRec :=
  { pgBackupInit with start_time := 7, status := BackupStatus.RUNNING }

theorem write_backup_status_frame_witness :
    write_backup_status storeW bMissW BackupStatus.ERROR = (storeW, bMissW) ∧
    write_backup_status storeW bInW BackupStatus.ERROR
      = (write_backup storeW { recW with status := BackupStatus.ERROR },
         { bInW with status := BackupStatus.ERROR }) ∧
    (write_backup_status storeW bInW BackupStatus.ERROR).1
      = (write_backup_status storeW bInW2 BackupStatus.ERROR).1 :=
  ⟨(write_backup_status_frame storeW bMissW BackupStatus.ERROR).1 rfl,
   (write_backup_status_frame storeW bInW BackupStatus.ERROR).2.1 recW rfl,
   (write_backup_status_frame storeW bInW BackupStatus.ERROR).2.2 bInW2 rfl⟩

/-- C2: with `wal_depth <= 0`, `catalog_get_timelines` performs no
retention processing at all and returns the timelines untouched; with
`wal_depth > 0`, a timeline with at least `wal_depth` backups of status
OK/DONE, valid `start_lsn` and positive tli gets its `anchor_lsn` and
`anchor_tli` from the `wal_depth`-th such backup of its (descending)
backup list. -/
theorem retention_anchor (seg_size : Nat) (wd : Int)
    (tls : List timelineInfoRec) :
    (wd ≤ 0 → catalog_get_timelines_retention seg_size wd tls = tls) ∧
    (∀ (i : Nat) (t : timelineInfoRec) (bks : List pgBackupRec)
      (nb : pgBackupRec), 0 < wd → tls[i]? = some t → t.backups = some bks →
      (bks.filter anchorCandidate)[wd.toNat - 1]? = some nb →
      ∃ t', (catalog_get_timelines_retention seg_size wd tls)[i]? = some t' ∧
        t'.anchor_lsn = nb.start_lsn ∧ t'.anchor_tli = nb.tli) := by
  constructor
  · intro hle
    unfold catalog_get_timelines_retention
    rw [if_pos hle]
  · intro i t bks nb hwd hti hb hget
    have hwdn : 0 < wd.toNat := by omega
    have ha : (anchorLoopAux wd.toNat 0 bks).2 = some nb := by
      rw [anchorLoopAux_get wd.toNat bks 0 hwdn, List.get?_eq_getElem?]
      simpa using hget
    obtain ⟨t', hfin, h1, h2⟩ :=
      anchorPhase_found seg_size wd.toNat tls i t bks nb hti hb ha
    unfold catalog_get_timelines_retention
    rw [if_neg (by omega)]
    refine ⟨markTimeline seg_size t', ?_, ?_, ?_⟩
    · unfold markPhase
      rw [List.getElem?_map, hfin]
      rfl
    · rw [(markTimeline_fields seg_size t').1, h1]
    · rw [(markTimeline_fields seg_size t').2.1, h2]

/-- C1: after retention with `wal_depth > 0`, on every timeline whose
`anchor_lsn` is valid and whose `anchor_tli` is the timeline's own tli,
a WAL file has `keep = true` exactly when its segno is at or past the
anchor segno or lies inside one of the timeline's `keep_segments`
intervals (the scanner hands every file over with `keep = false`). -/
theorem retention_keep_iff (seg_size : Nat) (wd : Int)
    (tls : List timelineInfoRec) (hwd : 0 < wd)
    (hkeep : ∀ t ∈ tls, ∀ w ∈ t.xlog_filelist, w.keep = false) :
    ∀ t' ∈ catalog_get_timelines_retention seg_size wd tls,
      t'.anchor_lsn ≠ 0 → t'.anchor_tli = t'.tli →
      ∀ w ∈ t'.xlog_filelist,
        (w.keep = true ↔
          GetXLogSegNo t'.anchor_lsn seg_size ≤ w.segno ∨
          ∃ k ∈ t'.keep_segments.getD [],
            k.begin_segno ≤ w.segno ∧ w.segno ≤ k.end_segno) := by
  intro t' ht' hanch htli w hw
  unfold catalog_get_timelines_retention at ht'
  rw [if_neg (by omega)] at ht'
  have ht'' : t' ∈ (anchorPhase seg_size wd.toNat tls).map (markTimeline seg_size) :=
    ht'
  obtain ⟨u, hu, rfl⟩ := List.mem_map.mp ht''
  obtain ⟨k, hk⟩ := List.mem_iff_getElem?.mp hu
  obtain ⟨t0, ht0, _, huf, _⟩ :=
    foldSteps_frame seg_size wd.toNat (List.range tls.length) tls k u hk
  have ht0mem : t0 ∈ tls := List.getElem?_mem ht0
  have hkeepu : ∀ w' ∈ u.xlog_filelist, w'.keep = false := by
    intro w' hw'
    exact hkeep t0 ht0mem w' (huf ▸ hw')
  have hf := markTimeline_fields seg_size u
  have hu0 : u.anchor_lsn ≠ 0 := by
    rw [← hf.1]
    exact hanch
  have hutli : u.anchor_tli = u.tli := by
    rw [← hf.2.1, ← hf.2.2.1]
    exact htli
  have hskip : ¬(u.anchor_tli ≠ 0 ∧ u.anchor_tli ≠ u.tli) := by
    intro hcon
    exact hcon.2 hutli
  have hmt : markTimeline seg_size u
      = { u with
          xlog_filelist := u.xlog_filelist.map
                             (markFile (GetXLogSegNo u.anchor_lsn seg_size)
                               u.keep_segments) } := by
    unfold markTimeline
    rw [if_neg hu0, if_neg hskip]
  rw [hmt] at hw ⊢
  obtain ⟨w0, hw0, rfl⟩ := List.mem_map.mp hw
  have hmf := markFile_spec (GetXLogSegNo u.anchor_lsn seg_size) u.keep_segments
    w0 (hkeepu w0 hw0)
  show (markFile (GetXLogSegNo u.anchor_lsn seg_size) u.keep_segments w0).keep = true ↔ _
  rw [hmf.2, hmf.1, inKeepSegments_iff]

/-- C3: after an anchor is found on a timeline in its own backups, the
per-timeline pass appends to that timeline's `keep_segments` exactly one
interval `[segno(start_lsn), segno(stop_lsn)]` — with end
`segno(stop_lsn) + 1` when `from_replica` is set — for every backup past
the anchor that is not a STREAM backup, has a valid `start_lsn`, a
positive tli and `start_lsn < anchor_lsn`, and nothing for any other
backup: with the backup list sorted by `start_lsn` descending (the
code's stated precondition), the appended intervals are the filtered map
over the whole list, in which only backups past the anchor can qualify,
and equally over the loop's real range from index `wal_depth` on. -/
theorem retention_keep_segments (seg_size wd : Nat)
    (tls : List timelineInfoRec) (i : Nat) (t : timelineInfoRec)
    (bks : List pgBackupRec) (ab : pgBackupRec)
    (hti : tls[i]? = some t) (hb : t.backups = some bks)
    (ha : (anchorLoopAux wd 0 bks).2 = some ab)
    (hsort : List.Pairwise (fun a b => b.start_lsn ≤ a.start_lsn) bks) :
    ∃ t', (retentionStep seg_size wd tls i)[i]? = some t' ∧
      t'.anchor_lsn = ab.start_lsn ∧
      t'.keep_segments.getD []
        = t.keep_segments.getD []
          ++ ((bks.drop wd).filter (keepContrib ab.start_lsn)).map
               (intervalOfBackup seg_size) ∧
      t'.keep_segments.getD []
        = t.keep_segments.getD []
          ++ (bks.filter (keepContrib ab.start_lsn)).map
               (intervalOfBackup seg_size) := by
  refine ⟨_, retentionStep_found seg_size wd tls i t bks ab hti hb ha, rfl, ?_, ?_⟩
  · show (archiveKeep seg_size ab.start_lsn (bks.drop wd) t.keep_segments).getD []
        = _
    rw [archiveKeep_getD]
  · show (archiveKeep seg_size ab.start_lsn (bks.drop wd) t.keep_segments).getD []
        = _
    rw [archiveKeep_getD, filter_keepContrib_sorted wd bks ab ha hsort]

/-- An OK FULL backup on timeline 1 used in the retention witnesses. -/
def bkN (slsn plsn : Nat) : pgBackupRec :=
  { pgBackupInit with
    backup_mode := BackupMode.FULL
    status := BackupStatus.OK
    tli := 1
    start_lsn := slsn
    stop_lsn := plsn }

/-- A timeline with four OK ARCHIVE backups (ids descending) and three
WAL files, as the scanner would hand it to the retention engine. -/
def tlW : timelineInfoRec :=
  { tli := 1
    parent_link := none
    switchpoint := 0
    begin_segno := 1
    end_segno := 7
    backups := some [bkN 100 110, bkN 80 90, bkN 50 60, bkN 20 30]
    closest_backup := none
    anchor_lsn := 0
    anchor_tli := 0
    keep_segments := none
    xlog_filelist := [{ segno := 1, keep := false }, { segno := 3, keep := false },
                      { segno := 6, keep := false }] }

/-- The first timeline of the retention result on `tlW` with
`wal_depth = 2` and segment size 16. -/
def tlWout : timelineInfoRec :=
  ((catalog_get_timelines_retention 16 2 [tlW])[0]?).getD tlW

/-- The second WAL file of `tlWout` (segno 3). -/
def fW : xlogFileRec :=
  ((tlWout.xlog_filelist)[1]?).getD { segno := 0, keep := false }

theorem retention_anchor_witness :
    catalog_get_timelines_retention 16 (-1) [tlW] = [tlW] ∧
    ∃ t', (catalog_get_timelines_retention 16 2 [tlW])[0]? = some t' ∧
      t'.anchor_lsn = (bkN 80 90).start_lsn ∧ t'.anchor_tli = (bkN 80 90).tli :=
  ⟨(retention_anchor 16 (-1) [tlW]).1 (by decide),
   (retention_anchor 16 2 [tlW]).2 0 tlW
     [bkN 100 110, bkN 80 90, bkN 50 60, bkN 20 30] (bkN 80 90)
     (by decide) (by decide) (by decide) (by decide)⟩

theorem retention_keep_iff_witness :
    (fW.keep = true ↔
      GetXLogSegNo tlWout.anchor_lsn 16 ≤ fW.segno ∨
      ∃ k ∈ tlWout.keep_segments.getD [],
        k.begin_segno ≤ fW.segno ∧ fW.segno ≤ k.end_segno) :=
  retention_keep_iff 16 2 [tlW] (by decide) (by decide) tlWout (by decide)
    (by decide) (by decide) fW (by decide)

theorem retention_keep_segments_witness :
    ∃ t', (retentionStep 16 2 [tlW] 0)[0]? = some t' ∧
      t'.anchor_lsn = (bkN 80 90).start_lsn ∧
      t'.keep_segments.getD []
        = tlW.keep_segments.getD []
          ++ (([bkN 100 110, bkN 80 90, bkN 50 60, bkN 20 30].drop 2).filter
                (keepContrib (bkN 80 90).start_lsn)).map (intervalOfBackup 16) ∧
      t'.keep_segments.getD []
        = tlW.keep_segments.getD []
          ++ ([bkN 100 110, bkN 80 90, bkN 50 60, bkN 20 30].filter
                (keepContrib (bkN 80 90).start_lsn)).map (intervalOfBackup 16) :=
  retention_keep_segments 16 2 [tlW] 0 tlW
    [bkN 100 110, bkN 80 90, bkN 50 60, bkN 20 30] (bkN 80 90)
    (by decide) (by decide) (by decide) (by decide)

end PgProbackup
